import Mathlib

/-!
Verification of the tailscale repository slice: the prober test clock
(package prober, fake time/ticker), the CLI argument rewriter
(package cli, CleanUpArgs), and the read-only views (package views,
UnmarshalJSON guards).

Time is modelled as Int (nanoseconds since the Unix epoch, matching
Go time.Time in the tests, where epoch = time.Unix(0, 0)).
Go channels of capacity 1 are modelled as Option Int: some v is a
buffered, unconsumed tick; none is an empty channel.
-/

/-- One fake ticker, from fakeTicker in the prober test file:
a capacity-1 channel, the configured interval, the next scheduled
tick time, and the stopped flag set by Stop. -/
structure FakeTicker where
  ch : Option Int
  interval : Int
  next : Int
  stopped : Bool
deriving DecidableEq, Repr

/-- The loop body of fakeTicker.fire: advance next by interval while
now is strictly after next. The Go loop is unbounded; for a positive
interval it performs at most (now - next) iterations, so the fuel
(now - next).toNat used by bumpNext below is sufficient, which
bumpNextAux_spec certifies (the result is the first element of the
arithmetic sequence that is at or after now). Non-positive intervals
make the Go loop diverge and never occur: NewTicker is only invoked
with positive probe intervals. -/
def bumpNextAux : Nat → Int → Int → Int → Int
  | 0, _, _, next => next
  | fuel+1, interval, now, next =>
    if next < now then bumpNextAux fuel interval now (next + interval) else next

/-- The next-tick update performed by fakeTicker.fire:
for now.After(t.next) { t.next = t.next.Add(t.interval) }. -/
def bumpNext (interval now next : Int) : Int :=
  bumpNextAux (now - next).toNat interval now next

/-- fakeTicker.fire(now): non-blocking send (select with default) on the
capacity-1 channel — a pending unconsumed tick stays and the new tick is
dropped — then the next-tick update loop. -/
def FakeTicker.fire (t : FakeTicker) (now : Int) : FakeTicker :=
  { t with
    ch := match t.ch with
      | some pending => some pending
      | none => some now
    next := bumpNext t.interval now t.next }

/-- fakeTicker.Stop: records the stopped flag (and nothing else). -/
def FakeTicker.Stop (t : FakeTicker) : FakeTicker :=
  { t with stopped := true }

/-- The fake clock fakeTime: current virtual time and the list of all
tickers ever created. -/
structure FakeTime where
  curTime : Int
  tickers : List FakeTicker
deriving DecidableEq, Repr

/-- newFakeTime: virtual time starts at the epoch. -/
def newFakeTime : FakeTime := { curTime := 0, tickers := [] }

/-- fakeTime.Now. -/
def FakeTime.Now (t : FakeTime) : Int := t.curTime

/-- fakeTime.NewTicker(d): a fresh ticker with an empty channel,
interval d, next scheduled tick at curTime + d, not stopped. -/
def FakeTime.NewTicker (t : FakeTime) (d : Int) : FakeTime :=
  { t with tickers := t.tickers ++ [⟨none, d, t.curTime + d, false⟩] }

/-- fakeTime.Advance(d): move the virtual time forward, then fire every
ticker whose next scheduled tick is strictly before the new time
(t.curTime.After(tick.next)); the stopped flag is not consulted. -/
def FakeTime.Advance (t : FakeTime) (d : Int) : FakeTime :=
  { curTime := t.curTime + d
    tickers := t.tickers.map fun tk =>
      if tk.next < t.curTime + d then tk.fire (t.curTime + d) else tk }

/-- Apply f to the element at index i, when it exists. -/
def applyAt {α : Type} (f : α → α) : Nat → List α → List α
  | _, [] => []
  | 0, tk :: rest => f tk :: rest
  | n+1, tk :: rest => tk :: applyAt f n rest

/-- Calling Stop on the i-th ticker of the clock. -/
def FakeTime.stopAt (t : FakeTime) (i : Nat) : FakeTime :=
  { t with tickers := applyAt FakeTicker.Stop i t.tickers }

/-- A receive from the i-th ticker's channel (the probe goroutine
consuming a tick), emptying the capacity-1 buffer. -/
def FakeTime.consumeAt (t : FakeTime) (i : Nat) : FakeTime :=
  { t with tickers := applyAt (fun tk => { tk with ch := none }) i t.tickers }

/-- fakeTime.activeTickers: the number of created tickers whose stopped
flag is not set. -/
def FakeTime.activeTickers (t : FakeTime) : Nat :=
  (t.tickers.filter fun tk => !tk.stopped).length

/-- With a positive interval and enough fuel, bumpNextAux lands on the
first element of the arithmetic sequence next + k * interval that is at
or after now; all earlier elements are strictly before now. -/
theorem bumpNextAux_spec (interval now : Int) (hpos : 1 ≤ interval) :
    ∀ (fuel : Nat) (next : Int), (now - next).toNat ≤ fuel →
      ∃ k : Nat, bumpNextAux fuel interval now next = next + (k : Int) * interval ∧
        now ≤ next + (k : Int) * interval ∧
        ∀ j : Nat, j < k → next + (j : Int) * interval < now := by
  intro fuel
  induction fuel with
  | zero =>
    intro next hf
    have hle : now ≤ next := by omega
    refine ⟨0, by simp [bumpNextAux], by simpa using hle, by omega⟩
  | succ f ih =>
    intro next hf
    by_cases hlt : next < now
    · obtain ⟨k, hk1, hk2, hk3⟩ := ih (next + interval) (by omega)
      refine ⟨k + 1, ?_, ?_, ?_⟩
      · have : bumpNextAux (f+1) interval now next = bumpNextAux f interval now (next + interval) := by
          simp [bumpNextAux, hlt]
        rw [this, hk1]; push_cast; ring
      · calc now ≤ next + interval + (k : Int) * interval := hk2
          _ = next + ((k + 1 : Nat) : Int) * interval := by push_cast; ring
      · intro j hj
        rcases Nat.eq_zero_or_pos j with hj0 | hjpos
        · subst hj0; simpa using hlt
        · obtain ⟨j', rfl⟩ := Nat.exists_eq_succ_of_ne_zero (Nat.pos_iff_ne_zero.mp hjpos)
          calc next + ((j' + 1 : Nat) : Int) * interval
              = next + interval + (j' : Int) * interval := by push_cast; ring
            _ < now := hk3 j' (by omega)
    · refine ⟨0, ?_, ?_, by omega⟩
      · simp [bumpNextAux, hlt]
      · simp; omega

/-- The same characterization for bumpNext itself. -/
theorem bumpNext_spec (interval now next : Int) (hpos : 1 ≤ interval) :
    ∃ k : Nat, bumpNext interval now next = next + (k : Int) * interval ∧
      now ≤ next + (k : Int) * interval ∧
      ∀ j : Nat, j < k → next + (j : Int) * interval < now :=
  bumpNextAux_spec interval now hpos _ next le_rfl

/-- Claim C3: fakeTicker.fire(now) never blocks: it is a total state
update in which a pending unconsumed tick on the capacity-1 channel is
left in place and the new tick is dropped (an empty channel receives
now), and the next scheduled time is advanced along the arithmetic
sequence of the interval to the first point at or after now — all
earlier sequence points (missed intervals) are skipped, not caught
up — while interval and stopped are untouched. -/
theorem fire_drops_pending_and_skips_missed (tk : FakeTicker) (now : Int)
    (hpos : 1 ≤ tk.interval) :
    ((tk.ch = none → (tk.fire now).ch = some now) ∧
      ∀ v, tk.ch = some v → (tk.fire now).ch = some v) ∧
    (tk.fire now).interval = tk.interval ∧
    (tk.fire now).stopped = tk.stopped ∧
    ∃ k : Nat, (tk.fire now).next = tk.next + (k : Int) * tk.interval ∧
      now ≤ tk.next + (k : Int) * tk.interval ∧
      ∀ j : Nat, j < k → tk.next + (j : Int) * tk.interval < now := by
  refine ⟨⟨?_, ?_⟩, rfl, rfl, ?_⟩
  · intro h; simp [FakeTicker.fire, h]
  · intro v h; simp [FakeTicker.fire, h]
  · simpa [FakeTicker.fire] using bumpNext_spec tk.interval now tk.next hpos

/-- Witness for Claim C3 at a concrete ticker: pending tick 5 is kept,
now = 20 skips past 8 and 16 to next = 24. -/
theorem fire_drops_pending_and_skips_missed_witness :
    (1 : Int) ≤ (⟨some 5, 8, 8, false⟩ : FakeTicker).interval ∧
    ((⟨some 5, 8, 8, false⟩ : FakeTicker).fire 20).ch = some 5 ∧
    ((⟨some 5, 8, 8, false⟩ : FakeTicker).fire 20).interval = 8 ∧
    ((⟨some 5, 8, 8, false⟩ : FakeTicker).fire 20).stopped = false ∧
    ((⟨some 5, 8, 8, false⟩ : FakeTicker).fire 20).next = 24 :=
  ⟨by norm_num,
    (fire_drops_pending_and_skips_missed ⟨some 5, 8, 8, false⟩ 20 (by norm_num)).1.2 5 rfl,
    (fire_drops_pending_and_skips_missed ⟨some 5, 8, 8, false⟩ 20 (by norm_num)).2.1,
    (fire_drops_pending_and_skips_missed ⟨some 5, 8, 8, false⟩ 20 (by norm_num)).2.2.1,
    by decide⟩

theorem applyAt_length {α : Type} (f : α → α) : ∀ (i : Nat) (l : List α),
    (applyAt f i l).length = l.length := by
  intro i l
  induction l generalizing i with
  | nil => cases i <;> rfl
  | cons hd tl ih => cases i with
    | zero => rfl
    | succ n => simpa [applyAt] using ih n

theorem applyAt_getElem_self {α : Type} (f : α → α) : ∀ (l : List α) (i : Nat)
    (h : i < l.length) (h2 : i < (applyAt f i l).length),
    (applyAt f i l)[i] = f l[i] := by
  intro l
  induction l with
  | nil => intro i h; simp at h
  | cons hd tl ih =>
    intro i h h2
    cases i with
    | zero => rfl
    | succ n => simpa [applyAt] using ih n (by simpa using h) (by simpa [applyAt_length] using h)

theorem applyAt_getElem_ne {α : Type} (f : α → α) : ∀ (l : List α) (i j : Nat)
    (h : j < l.length) (h2 : j < (applyAt f i l).length), j ≠ i →
    (applyAt f i l)[j] = l[j] := by
  intro l
  induction l with
  | nil => intro i j h; simp at h
  | cons hd tl ih =>
    intro i j h h2 hne
    cases i with
    | zero =>
      cases j with
      | zero => exact absurd rfl hne
      | succ m => simp [applyAt]
    | succ n =>
      cases j with
      | zero => rfl
      | succ m =>
        simpa [applyAt] using
          ih n m (by simpa using h) (by simpa [applyAt_length] using h) (by omega)

/-- Modelled from the spec: the Prober initial-delay computation and the
entry of Probe.loop are not under src/ (only the tests are). Per the
spec, with spread enabled a probe's first iteration is preceded by a
deterministic-per-name pseudo-random delay strictly below the interval;
a simple deterministic string hash stands in for the pseudo-random
source seeded by the probe name. -/
def nameHash (name : String) : Int :=
  name.toList.foldl (fun h c => h * 31 + (c.toNat : Int)) 7

/-- Modelled from the spec: the deterministic per-name initial delay,
reduced modulo the interval so that it is nonnegative and strictly less
than the interval. -/
def initialDelay (name : String) (interval : Int) : Int :=
  nameHash name % interval

/-- Modelled from the spec: when the probe's run loop starts at virtual
time t0, the first iteration runs at t0 when spread is disabled, and
after the per-name initial delay when spread is enabled. -/
def firstRunTime (spread : Bool) (name : String) (interval t0 : Int) : Int :=
  if spread then t0 + initialDelay name interval else t0

/-- Claim C1, amended: with no spread the first iteration runs
immediately at registration time t0; thereafter, for every ticker of
the fake clock, an Advance that leaves the current time at or before
the ticker's next scheduled tick fires nothing (the ticker is left
entirely unchanged), an Advance that moves the current time strictly
past the next scheduled tick fires it (delivering a tick unless one is
already pending), and the next scheduled tick always stays on the grid
of multiples of the interval past creation. The original claim's
clause that advancing by less than the interval since the last firing
never triggers a new invocation is false (see the counterexample): a
firing can land strictly inside an interval, after which a smaller
advance can still cross the next grid point. -/
theorem advance_fires_exactly_past_next (ft : FakeTime) (d : Int) (i : Nat)
    (h : i < ft.tickers.length) (h2 : i < (ft.Advance d).tickers.length)
    (t0 : Int) (name : String) :
    firstRunTime false name (ft.tickers[i]).interval t0 = t0 ∧
    (ft.curTime + d ≤ (ft.tickers[i]).next →
      (ft.Advance d).tickers[i] = ft.tickers[i]) ∧
    ((ft.tickers[i]).next < ft.curTime + d →
      ((ft.tickers[i]).ch = none →
        ((ft.Advance d).tickers[i]).ch = some (ft.curTime + d)) ∧
      ∀ v, (ft.tickers[i]).ch = some v →
        ((ft.Advance d).tickers[i]).ch = some v) ∧
    (∀ k : Nat, 1 ≤ (ft.tickers[i]).interval →
      (ft.tickers[i]).next = t0 + (k : Int) * (ft.tickers[i]).interval →
      ∃ k2 : Nat, k ≤ k2 ∧
        ((ft.Advance d).tickers[i]).next = t0 + (k2 : Int) * (ft.tickers[i]).interval) := by
  have hmap : (ft.Advance d).tickers[i] =
      (if (ft.tickers[i]).next < ft.curTime + d then
        (ft.tickers[i]).fire (ft.curTime + d) else ft.tickers[i]) := by
    simp [FakeTime.Advance]
  refine ⟨rfl, ?_, ?_, ?_⟩
  · intro hle
    rw [hmap, if_neg (by omega)]
  · intro hlt
    rw [hmap, if_pos hlt]
    constructor
    · intro hch; simp [FakeTicker.fire, hch]
    · intro v hch; simp [FakeTicker.fire, hch]
  · intro k hpos hgrid
    rw [hmap]
    by_cases hlt : (ft.tickers[i]).next < ft.curTime + d
    · rw [if_pos hlt]
      obtain ⟨k2, hk1, _, _⟩ :=
        bumpNext_spec (ft.tickers[i]).interval (ft.curTime + d) (ft.tickers[i]).next hpos
      refine ⟨k + k2, by omega, ?_⟩
      show ((ft.tickers[i]).fire (ft.curTime + d)).next = _
      rw [FakeTicker.fire]
      simp only []
      rw [hk1, hgrid]
      push_cast
      ring
    · rw [if_neg hlt]
      exact ⟨k, le_rfl, hgrid⟩

/-- Witness for the amended Claim C1 at a concrete state: one ticker of
interval 8 created at the epoch, advanced by 12. -/
theorem advance_fires_exactly_past_next_witness :
    firstRunTime false "test-probe" 8 0 = 0 ∧
    (((newFakeTime.NewTicker 8).Advance 12).tickers.get ⟨0, by decide⟩).ch = some 12 ∧
    (((newFakeTime.NewTicker 8).Advance 12).tickers.get ⟨0, by decide⟩).next = 16 :=
  ⟨(advance_fires_exactly_past_next (newFakeTime.NewTicker 8) 12 0 (by decide) (by decide)
      0 "test-probe").1,
    ((advance_fires_exactly_past_next (newFakeTime.NewTicker 8) 12 0 (by decide) (by decide)
      0 "test-probe").2.2.1 (by decide)).1 rfl,
    by decide⟩

/-- Counterexample to Claim C1 as stated: interval 8, ticker created at
the epoch (next tick at 8). Advance 12 fires (tick at 12, next moves to
16). After the tick is consumed, a further Advance of only 6 < 8 — less
than the interval since the last firing at 12 — fires again (tick at
18), because it crosses the grid point 16. -/
theorem small_advance_after_firing_still_ticks :
    ((6 : Int) < 8) ∧
    ((newFakeTime.NewTicker 8).Advance 12).tickers = [⟨some 12, 8, 16, false⟩] ∧
    ((((newFakeTime.NewTicker 8).Advance 12).consumeAt 0).Advance 6).tickers =
      [⟨some 18, 8, 24, false⟩] := by decide

/-- Claim C2, amended: fakeTicker.Stop marks the ticker stopped (so it
is no longer counted active) and changes nothing else; it does not
silence the ticker: fakeTime.Advance never consults the stopped flag,
so a stopped ticker whose next scheduled tick is crossed still has a
tick emitted on its channel. -/
theorem stop_marks_but_does_not_silence (ft : FakeTime) (d : Int) (i : Nat)
    (h : i < ft.tickers.length) (h2 : i < (ft.stopAt i).tickers.length)
    (h3 : i < (ft.Advance d).tickers.length) :
    ((ft.stopAt i).tickers[i]).stopped = true ∧
    ((ft.stopAt i).tickers[i]).ch = (ft.tickers[i]).ch ∧
    ((ft.stopAt i).tickers[i]).next = (ft.tickers[i]).next ∧
    ((ft.stopAt i).tickers[i]).interval = (ft.tickers[i]).interval ∧
    ((ft.tickers[i]).stopped = true → (ft.tickers[i]).ch = none →
      (ft.tickers[i]).next < ft.curTime + d →
      ((ft.Advance d).tickers[i]).ch = some (ft.curTime + d)) := by
  have hstop : (ft.stopAt i).tickers[i] = (ft.tickers[i]).Stop := by
    simpa [FakeTime.stopAt] using
      applyAt_getElem_self FakeTicker.Stop ft.tickers i h (by simpa [FakeTime.stopAt] using h2)
  have hmap : (ft.Advance d).tickers[i] =
      (if (ft.tickers[i]).next < ft.curTime + d then
        (ft.tickers[i]).fire (ft.curTime + d) else ft.tickers[i]) := by
    simp [FakeTime.Advance]
  refine ⟨?_, ?_, ?_, ?_, ?_⟩
  · rw [hstop]; rfl
  · rw [hstop]; rfl
  · rw [hstop]; rfl
  · rw [hstop]; rfl
  · intro _ hch hlt
    rw [hmap, if_pos hlt]
    simp [FakeTicker.fire, hch]

/-- Witness for the amended Claim C2 at a concrete state: one stopped
ticker of interval 8, advanced by 12. -/
theorem stop_marks_but_does_not_silence_witness :
    ((((newFakeTime.NewTicker 8).stopAt 0).stopAt 0).tickers.get ⟨0, by decide⟩).stopped
      = true ∧
    ((((newFakeTime.NewTicker 8).stopAt 0).Advance 12).tickers.get ⟨0, by decide⟩).ch
      = some 12 :=
  ⟨(stop_marks_but_does_not_silence ((newFakeTime.NewTicker 8).stopAt 0) 12 0
      (by decide) (by decide) (by decide)).1,
    (stop_marks_but_does_not_silence ((newFakeTime.NewTicker 8).stopAt 0) 12 0
      (by decide) (by decide) (by decide)).2.2.2.2 (by decide) (by decide) (by decide)⟩

/-- Counterexample to Claim C2 as stated: a ticker of interval 8 is
created at the epoch and immediately stopped; advancing the clock by 12
still emits a tick on its channel (ch = some 12) even though it is
stopped, so Stop does not permanently silence the fake ticker. -/
theorem advance_ticks_after_stop :
    ((newFakeTime.NewTicker 8).stopAt 0).tickers = [⟨none, 8, 8, true⟩] ∧
    (((newFakeTime.NewTicker 8).stopAt 0).Advance 12).tickers =
      [⟨some 12, 8, 16, true⟩] := by decide

/-- Claim C4: with spread enabled, the delay before the first iteration
is a deterministic function of the probe name (independent of the
registration time, hence repeatable across runs), nonnegative, and
strictly less than the interval, so the first invocation occurs
strictly before t0 + interval. -/
theorem spread_delay_deterministic_and_below_interval (name : String)
    (interval t0 : Int) (hpos : 0 < interval) :
    t0 ≤ firstRunTime true name interval t0 ∧
    firstRunTime true name interval t0 < t0 + interval ∧
    ∀ t1 : Int, firstRunTime true name interval t1 - t1 =
      firstRunTime true name interval t0 - t0 := by
  have h1 : 0 ≤ initialDelay name interval := Int.emod_nonneg _ (by omega)
  have h2 : initialDelay name interval < interval := Int.emod_lt_of_pos _ hpos
  refine ⟨?_, ?_, ?_⟩
  · simp only [firstRunTime, if_pos]; omega
  · simp only [firstRunTime, if_pos]; omega
  · intro t1; simp [firstRunTime]

/-- Witness for Claim C4 at the test's probe name and interval. -/
theorem spread_delay_deterministic_and_below_interval_witness :
    (0 : Int) ≤ firstRunTime true "test-spread-probe" 8 0 ∧
    firstRunTime true "test-spread-probe" 8 0 < 0 + 8 ∧
    firstRunTime true "test-spread-probe" 8 5 - 5 =
      firstRunTime true "test-spread-probe" 8 0 - 0 :=
  ⟨(spread_delay_deterministic_and_below_interval "test-spread-probe" 8 0 (by norm_num)).1,
    (spread_delay_deterministic_and_below_interval "test-spread-probe" 8 0 (by norm_num)).2.1,
    (spread_delay_deterministic_and_below_interval "test-spread-probe" 8 0 (by norm_num)).2.2 5⟩

/-- Modelled from the spec: a probe's latest-result snapshot (start
time, end time, success flag); Probe's result recording and the metrics
recorder are not under src/ (only the tests are). Times are in
nanoseconds; recording a completed iteration overwrites the snapshot
atomically. -/
structure Snapshot where
  startTime : Int
  endTime : Int
  succeeded : Bool
deriving DecidableEq, Repr

/-- Modelled from the spec: the per-probe mutable result state, which
holds no snapshot until the first iteration completes. -/
structure ProbeRec where
  latest : Option Snapshot
deriving DecidableEq, Repr

/-- A freshly registered probe has no snapshot. -/
def ProbeRec.new : ProbeRec := ⟨none⟩

/-- Modelled from the spec: completing an iteration records start, end
and success in the snapshot. -/
def ProbeRec.recordIteration (_ : ProbeRec) (s e : Int) (ok : Bool) : ProbeRec :=
  ⟨some ⟨s, e, ok⟩⟩

/-- Modelled from the spec: the NS_latency_millis gauge, present only
when a snapshot exists, in milliseconds (Go Duration.Milliseconds
truncates the nanosecond difference). -/
def latencyMillisGauge (p : ProbeRec) : Option Int :=
  p.latest.map fun sn => (sn.endTime - sn.startTime) / 1000000

/-- Modelled from the spec: the NS_start_secs gauge. -/
def startSecsGauge (p : ProbeRec) : Option Int :=
  p.latest.map fun sn => sn.startTime / 1000000000

/-- Modelled from the spec: the NS_end_secs gauge. -/
def endSecsGauge (p : ProbeRec) : Option Int :=
  p.latest.map fun sn => sn.endTime / 1000000000

/-- Modelled from the spec: the NS_result gauge. -/
def resultGauge (p : ProbeRec) : Option Int :=
  p.latest.map fun sn => if sn.succeeded then 1 else 0

/-- Claim C6: while a probe has never completed an iteration its
dynamic gauges — NS_latency_millis among them — are absent from a
scrape; once an iteration completes, NS_latency_millis is present and
equals the (truncated) milliseconds between that iteration's start and
end. -/
theorem latency_gauge_absent_until_completion (p : ProbeRec) (s e : Int) (ok : Bool) :
    (p.latest = none →
      latencyMillisGauge p = none ∧ startSecsGauge p = none ∧
      endSecsGauge p = none ∧ resultGauge p = none) ∧
    latencyMillisGauge (p.recordIteration s e ok) = some ((e - s) / 1000000) ∧
    (latencyMillisGauge (p.recordIteration s e ok)).isSome = true := by
  refine ⟨?_, ?_, ?_⟩
  · intro h
    simp [latencyMillisGauge, startSecsGauge, endSecsGauge, resultGauge, h]
  · simp [latencyMillisGauge, ProbeRec.recordIteration]
  · simp [latencyMillisGauge, ProbeRec.recordIteration]

/-- Witness for Claim C6: a fresh probe has no latency gauge; after an
iteration lasting 20ms (the test's aFewMillis) it reads 20. -/
theorem latency_gauge_absent_until_completion_witness :
    latencyMillisGauge ProbeRec.new = none ∧
    startSecsGauge ProbeRec.new = none ∧
    endSecsGauge ProbeRec.new = none ∧
    resultGauge ProbeRec.new = none ∧
    latencyMillisGauge (ProbeRec.new.recordIteration 0 20000000 true) =
      some ((20000000 - 0) / 1000000) ∧
    (latencyMillisGauge (ProbeRec.new.recordIteration 0 20000000 true)).isSome = true :=
  ⟨((latency_gauge_absent_until_completion ProbeRec.new 0 20000000 true).1 rfl).1,
    ((latency_gauge_absent_until_completion ProbeRec.new 0 20000000 true).1 rfl).2.1,
    ((latency_gauge_absent_until_completion ProbeRec.new 0 20000000 true).1 rfl).2.2.1,
    ((latency_gauge_absent_until_completion ProbeRec.new 0 20000000 true).1 rfl).2.2.2,
    (latency_gauge_absent_until_completion ProbeRec.new 0 20000000 true).2.1,
    (latency_gauge_absent_until_completion ProbeRec.new 0 20000000 true).2.2⟩

/-- unmarshalSliceFromJSON from views.go. Go json.Unmarshal lives
outside this repository, so the JSON decoder is an abstract parameter;
a call returns the error (none on success) paired with the new value of
the slice. The underlying Go slice is Option (List T): none is the nil
slice. -/
def unmarshalSliceFromJSON {T : Type}
    (jsonUnmarshal : List Char → Option (List T) → Option String × Option (List T))
    (b : List Char) (x : Option (List T)) : Option String × Option (List T) :=
  match x with
  | some _ => (some "already initialized", x)
  | none => if b.length = 0 then (none, x) else jsonUnmarshal b x

/-- ByteSlice.UnmarshalJSON from views.go: guards on a non-nil
underlying slice, then defers to json.Unmarshal (no empty-input
shortcut). Bytes are Nat. -/
def byteSliceUnmarshalJSON
    (jsonUnmarshal : List Char → Option (List Nat) → Option String × Option (List Nat))
    (b : List Char) (v : Option (List Nat)) : Option String × Option (List Nat) :=
  match v with
  | some _ => (some "already initialized", v)
  | none => jsonUnmarshal b v

/-- Map.UnmarshalJSON from views.go: guards on a non-nil underlying
map, then defers to json.Unmarshal. The underlying Go map is an
association list, none when nil. -/
def mapUnmarshalJSON {K V : Type}
    (jsonUnmarshal : List Char → Option (List (K × V)) → Option String × Option (List (K × V)))
    (b : List Char) (m : Option (List (K × V))) : Option String × Option (List (K × V)) :=
  match m with
  | some _ => (some "already initialized", m)
  | none => jsonUnmarshal b m

/-- Claim C10: whatever the JSON decoder does, UnmarshalJSON on a view
whose underlying container is already non-nil returns the already
initialized error and leaves the underlying value unchanged — for the
slice views (via unmarshalSliceFromJSON), for ByteSlice and for Map —
and on a nil underlying slice with empty input the slice variants
succeed and leave it nil. -/
theorem unmarshal_guards_initialized_views {T K V : Type}
    (unmS : List Char → Option (List T) → Option String × Option (List T))
    (unmB : List Char → Option (List Nat) → Option String × Option (List Nat))
    (unmM : List Char → Option (List (K × V)) → Option String × Option (List (K × V)))
    (b : List Char) (x : Option (List T)) (v : Option (List Nat)) (m : Option (List (K × V))) :
    (x ≠ none → unmarshalSliceFromJSON unmS b x = (some "already initialized", x)) ∧
    (v ≠ none → byteSliceUnmarshalJSON unmB b v = (some "already initialized", v)) ∧
    (m ≠ none → mapUnmarshalJSON unmM b m = (some "already initialized", m)) ∧
    unmarshalSliceFromJSON unmS [] none = (none, none) := by
  refine ⟨?_, ?_, ?_, ?_⟩
  · intro hx
    cases x with
    | none => exact absurd rfl hx
    | some l => rfl
  · intro hv
    cases v with
    | none => exact absurd rfl hv
    | some l => rfl
  · intro hm
    cases m with
    | none => exact absurd rfl hm
    | some l => rfl
  · rfl

/-- Witness for Claim C10 at concrete views and a trivial decoder:
initialized slice [1], byte slice [2] and map [(1, 2)] are all left
unchanged with the error; the nil slice with empty input stays nil. -/
theorem unmarshal_guards_initialized_views_witness :
    unmarshalSliceFromJSON (fun _ y => (none, y)) ['x'] (some [1]) =
      (some "already initialized", some [1]) ∧
    byteSliceUnmarshalJSON (fun _ y => (none, y)) ['x'] (some [2]) =
      (some "already initialized", some [2]) ∧
    mapUnmarshalJSON (fun _ y => (none, y)) ['x'] (some [(1, 2)]) =
      (some "already initialized", some [(1, 2)]) ∧
    unmarshalSliceFromJSON (T := Nat) (fun _ y => (none, y)) [] none = (none, none) :=
  ⟨(unmarshal_guards_initialized_views (fun _ y => (none, y)) (fun _ y => (none, y))
      (fun _ y => (none, y)) ['x'] (some [1]) (some [2])
      (some [((1 : Nat), (2 : Nat))])).1 (by simp),
    (unmarshal_guards_initialized_views (fun _ y => (none, y)) (fun _ y => (none, y))
      (fun _ y => (none, y)) ['x'] (some [1]) (some [2])
      (some [((1 : Nat), (2 : Nat))])).2.1 (by simp),
    (unmarshal_guards_initialized_views (fun _ y => (none, y)) (fun _ y => (none, y))
      (fun _ y => (none, y)) ['x'] (some [1]) (some [2])
      (some [((1 : Nat), (2 : Nat))])).2.2.1 (by simp),
    (unmarshal_guards_initialized_views (fun _ y => (none, y)) (fun _ y => (none, y))
      (fun _ y => (none, y)) ['x'] (some [1]) (some [2])
      (some [((1 : Nat), (2 : Nat))])).2.2.2⟩

/-- strings.TrimLeft(arg, "-") from CleanUpArgs: drop every leading
dash. Go strings are modelled as List Char. -/
def trimLeftDash (s : List Char) : List Char :=
  s.dropWhile fun c => c == '-'

/-- strings.TrimPrefix(s, pre): drop pre when it is a prefix of s,
otherwise return s unchanged. -/
def trimPrefixList (s pre : List Char) : List Char :=
  if pre.isPrefixOf s then s.drop pre.length else s

/-- The per-argument switch of CleanUpArgs in the cli package: rewrite
the exact arguments --authkey and -authkey to --auth-key, rewrite
--authkey=x and -authkey=x to --auth-key=x (strip leading dashes, strip
the authkey= prefix, re-prepend --auth-key=), leave anything else
alone. -/
def cleanUpArg (arg : List Char) : List Char :=
  if arg = "--authkey".toList ∨ arg = "-authkey".toList then
    "--auth-key".toList
  else if "--authkey=".toList.isPrefixOf arg ∨ "-authkey=".toList.isPrefixOf arg then
    "--auth-key=".toList ++ trimPrefixList (trimLeftDash arg) "authkey=".toList
  else arg

/-- CleanUpArgs from the cli package: rewrite each argument in place. -/
def CleanUpArgs (args : List (List Char)) : List (List Char) :=
  args.map cleanUpArg

theorem cleanUpArg_eq_of_ddauthkey (rest : List Char) :
    cleanUpArg ("--authkey=".toList ++ rest) = "--auth-key=".toList ++ rest := by
  simp [cleanUpArg, trimLeftDash, trimPrefixList]

theorem cleanUpArg_eq_of_dauthkey (rest : List Char) :
    cleanUpArg ("-authkey=".toList ++ rest) = "--auth-key=".toList ++ rest := by
  simp [cleanUpArg, trimLeftDash, trimPrefixList]

theorem cleanUpArg_eq_of_other (arg : List Char)
    (h1 : arg ≠ "--authkey".toList) (h2 : arg ≠ "-authkey".toList)
    (h3 : "--authkey=".toList.isPrefixOf arg = false)
    (h4 : "-authkey=".toList.isPrefixOf arg = false) :
    cleanUpArg arg = arg := by
  rw [cleanUpArg, if_neg ?hc1, if_neg ?hc2]
  case hc1 => exact fun hor => hor.elim h1 h2
  case hc2 =>
    intro hor
    rcases hor with hp | hp
    · rw [h3] at hp; exact Bool.noConfusion hp
    · rw [h4] at hp; exact Bool.noConfusion hp

/-- Claim C9: CleanUpArgs preserves the length and the order of the
argument list, rewriting exactly the elements equal to --authkey or
-authkey to --auth-key, the elements beginning with --authkey= or
-authkey= to --auth-key= followed by the original value after the
equals sign, and returning every other element unchanged. -/
theorem cleanUpArgs_rewrites_authkey_only (args : List (List Char)) :
    (CleanUpArgs args).length = args.length ∧
    ∀ (i : Nat) (h : i < args.length) (h2 : i < (CleanUpArgs args).length),
      (args[i] = "--authkey".toList ∨ args[i] = "-authkey".toList →
        (CleanUpArgs args)[i] = "--auth-key".toList) ∧
      (∀ rest, args[i] = "--authkey=".toList ++ rest →
        (CleanUpArgs args)[i] = "--auth-key=".toList ++ rest) ∧
      (∀ rest, args[i] = "-authkey=".toList ++ rest →
        (CleanUpArgs args)[i] = "--auth-key=".toList ++ rest) ∧
      (args[i] ≠ "--authkey".toList → args[i] ≠ "-authkey".toList →
        "--authkey=".toList.isPrefixOf args[i] = false →
        "-authkey=".toList.isPrefixOf args[i] = false →
        (CleanUpArgs args)[i] = args[i]) := by
  refine ⟨by simp [CleanUpArgs], ?_⟩
  intro i h h2
  have hmap : (CleanUpArgs args)[i] = cleanUpArg args[i] := by
    simp [CleanUpArgs]
  refine ⟨?_, ?_, ?_, ?_⟩
  · rintro (he | he) <;> rw [hmap, he] <;> rfl
  · intro rest hr
    rw [hmap, hr, cleanUpArg_eq_of_ddauthkey]
  · intro rest hr
    rw [hmap, hr, cleanUpArg_eq_of_dauthkey]
  · intro h1 h2 h3 h4
    rw [hmap, cleanUpArg_eq_of_other _ h1 h2 h3 h4]

/-- Witness for Claim C9 at a concrete argument list exercising all
four cases. -/
theorem cleanUpArgs_rewrites_authkey_only_witness :
    (CleanUpArgs ["--authkey".toList, "-authkey=abc".toList, "foo".toList]).length = 3 ∧
    (CleanUpArgs ["--authkey".toList, "-authkey=abc".toList, "foo".toList]).get
      ⟨0, by decide⟩ = "--auth-key".toList ∧
    (CleanUpArgs ["--authkey".toList, "-authkey=abc".toList, "foo".toList]).get
      ⟨1, by decide⟩ = "--auth-key=abc".toList ∧
    (CleanUpArgs ["--authkey".toList, "-authkey=abc".toList, "foo".toList]).get
      ⟨2, by decide⟩ = "foo".toList := by
  refine ⟨?_, ?_, ?_, ?_⟩
  · exact (cleanUpArgs_rewrites_authkey_only _).1
  · exact ((cleanUpArgs_rewrites_authkey_only _).2 0 (by decide) (by decide)).1
      (Or.inl (by decide))
  · exact ((cleanUpArgs_rewrites_authkey_only _).2 1 (by decide) (by decide)).2.2.1
      "abc".toList (by decide)
  · exact ((cleanUpArgs_rewrites_authkey_only _).2 2 (by decide) (by decide)).2.2.2
      (by decide) (by decide) (by decide) (by decide)

/-- Modelled from the spec: a once-mode probe target. Prober.Wait and
the once-mode run loop are not under src/ (only TestOnceMode is). A
target either just returns success or failure, or — like probe3, which
registers probe4 during its own execution — first registers one further
once-mode probe and then returns its result. -/
inductive OnceTarget where
  | ret : Bool → OnceTarget
  | reg : String → OnceTarget → Bool → OnceTarget
deriving DecidableEq, Repr

/-- The number of probe executions a target gives rise to: itself plus,
recursively, every probe its execution registers. -/
def OnceTarget.size : OnceTarget → Nat
  | .ret _ => 1
  | .reg _ sub _ => 1 + sub.size

/-- The number of executions a pending list of once-mode probes will
produce in total. -/
def pendingSize (ps : List (String × OnceTarget)) : Nat :=
  (ps.map fun p => p.2.size).sum

/-- Modelled from the spec: the once-mode scheduler. Every pending
probe runs exactly one iteration and records its result; a probe
registered during an iteration joins the pending set and is awaited
too. Fuel bounds the number of iterations; pendingSize is always
enough fuel (runOnceFuel_length). -/
def runOnceFuel : Nat → List (String × OnceTarget) → List (String × Bool)
  | 0, _ => []
  | _+1, [] => []
  | f+1, (n, .ret ok) :: rest => (n, ok) :: runOnceFuel f rest
  | f+1, (n, .reg m sub ok) :: rest => (n, ok) :: runOnceFuel f (rest ++ [(m, sub)])

/-- Modelled from the spec: Wait in once-mode returns exactly when all
pending probes — including those registered along the way — have
completed, yielding every recorded result. -/
def proberWait (ps : List (String × OnceTarget)) : List (String × Bool) :=
  runOnceFuel (pendingSize ps) ps

theorem pendingSize_append (ps qs : List (String × OnceTarget)) :
    pendingSize (ps ++ qs) = pendingSize ps + pendingSize qs := by
  simp [pendingSize]

theorem runOnceFuel_length : ∀ (fuel : Nat) (ps : List (String × OnceTarget)),
    pendingSize ps ≤ fuel → (runOnceFuel fuel ps).length = pendingSize ps := by
  intro fuel
  induction fuel with
  | zero =>
    intro ps h
    have : pendingSize ps = 0 := Nat.le_zero.mp h
    simp [runOnceFuel, this]
  | succ f ih =>
    intro ps h
    match ps with
    | [] => simp [runOnceFuel, pendingSize]
    | (n, .ret ok) :: rest =>
      have hps : pendingSize ((n, OnceTarget.ret ok) :: rest) = 1 + pendingSize rest := by
        simp [pendingSize, OnceTarget.size]
      rw [runOnceFuel, List.length_cons, ih rest (by omega), hps]
      omega
    | (n, .reg m sub ok) :: rest =>
      have hps : pendingSize ((n, OnceTarget.reg m sub ok) :: rest) =
          1 + sub.size + pendingSize rest := by
        simp [pendingSize, OnceTarget.size]
      have hrec : pendingSize (rest ++ [(m, sub)]) = pendingSize rest + sub.size := by
        simp [pendingSize_append, pendingSize]
      rw [runOnceFuel, List.length_cons, ih (rest ++ [(m, sub)]) (by omega), hrec, hps]
      omega

/-- Claim C5: in once-mode, Wait returns only after every registered
probe — including probes registered from within another probe's own
execution — has completed its single iteration and recorded its result
(the number of recorded results equals the total number of probes,
dynamically registered ones included); in the TestOnceMode scenario
with probe1 (succeeds), probe2 (fails), probe3 (registers probe4,
which fails), exactly 4 results are recorded when Wait returns. -/
theorem wait_records_every_probe :
    (∀ (fuel : Nat) (ps : List (String × OnceTarget)), pendingSize ps ≤ fuel →
      (runOnceFuel fuel ps).length = pendingSize ps) ∧
    proberWait [("probe1", .ret true), ("probe2", .ret false),
        ("probe3", .reg "probe4" (.ret false) true)] =
      [("probe1", true), ("probe2", false), ("probe3", true), ("probe4", false)] ∧
    (proberWait [("probe1", .ret true), ("probe2", .ret false),
        ("probe3", .reg "probe4" (.ret false) true)]).length = 4 :=
  ⟨runOnceFuel_length, by decide, by decide⟩

/-- Witness for Claim C5 applying the quantified part at the concrete
scenario with surplus fuel. -/
theorem wait_records_every_probe_witness :
    (runOnceFuel 10 [("probe1", .ret true), ("probe2", .ret false),
        ("probe3", .reg "probe4" (.ret false) true)]).length =
      pendingSize [("probe1", OnceTarget.ret true), ("probe2", OnceTarget.ret false),
        ("probe3", OnceTarget.reg "probe4" (OnceTarget.ret false) true)] :=
  wait_records_every_probe.1 10
    [("probe1", .ret true), ("probe2", .ret false),
      ("probe3", .reg "probe4" (.ret false) true)] (by decide)

/-- Modelled from the spec: one registered probe of the registry — its
name, its interval, and the index of its ticker in the fake clock. The
Prober registry (Run, Close, activeProbes) is not under src/ (only the
tests are). -/
structure RegProbe where
  name : String
  interval : Int
  tickerIdx : Nat
deriving DecidableEq, Repr

/-- Modelled from the spec: the registry state — the set of live probes
(each owning one ticker) together with the injected fake clock. -/
structure ProberSt where
  probes : List RegProbe
  clock : FakeTime
deriving DecidableEq, Repr

/-- A fresh registry over a fresh fake clock. -/
def newProber : ProberSt := ⟨[], newFakeTime⟩

/-- Modelled from the spec: closing a probe by name — idempotent; stops
the probe's ticker and removes the probe from the registry, a no-op
when no probe has the name. -/
def ProberSt.Close (st : ProberSt) (name : String) : ProberSt :=
  match st.probes.find? (fun pr => pr.name == name) with
  | none => st
  | some pr =>
    { probes := st.probes.filter fun q => q.name != name
      clock := st.clock.stopAt pr.tickerIdx }

/-- Modelled from the spec: Prober.Run — a non-positive interval is a
precondition violation that fails fast, before any scheduling state is
touched; otherwise any namesake probe is stopped and removed, and the
new probe is installed with a freshly started ticker. -/
def ProberSt.Run (st : ProberSt) (name : String) (interval : Int) :
    Except String ProberSt :=
  if interval ≤ 0 then .error "non-positive interval"
  else
    let st1 := st.Close name
    .ok { probes := st1.probes ++ [⟨name, interval, st1.clock.tickers.length⟩]
          clock := st1.clock.NewTicker interval }

/-- The successful-path wrapper of Run, keeping the state unchanged on
the precondition violation. -/
def ProberSt.RunOk (st : ProberSt) (name : String) (interval : Int) : ProberSt :=
  match st.Run name interval with
  | .ok st2 => st2
  | .error _ => st

/-- Modelled from the spec: activeProbes — the count of probes not yet
stopped (closed probes are removed from the registry). -/
def ProberSt.activeProbes (st : ProberSt) : Nat := st.probes.length

/-- Claim C8: Run with a non-positive interval fails immediately with
an error and never enters scheduling (no state is produced); Run with a
positive interval and a fresh name installs the probe with a freshly
started ticker and returns the resulting state. -/
theorem run_fails_fast_on_nonpositive_interval (st : ProberSt) (name : String)
    (interval : Int) :
    (interval ≤ 0 → st.Run name interval = .error "non-positive interval") ∧
    (0 < interval → st.probes.find? (fun pr => pr.name == name) = none →
      st.Run name interval = .ok
        { probes := st.probes ++ [⟨name, interval, st.clock.tickers.length⟩]
          clock := st.clock.NewTicker interval }) := by
  constructor
  · intro h
    simp [ProberSt.Run, h]
  · intro h hfind
    have hclose : st.Close name = st := by
      simp [ProberSt.Close, hfind]
    rw [ProberSt.Run, if_neg (by omega)]
    simp [hclose]

/-- Witness for Claim C8: on a fresh registry, Run with interval -1
fails fast and Run with the test's interval 8 installs the probe. -/
theorem run_fails_fast_on_nonpositive_interval_witness :
    newProber.Run "test-probe" (-1) = .error "non-positive interval" ∧
    newProber.Run "test-probe" 8 = .ok
      { probes := newProber.probes ++ [⟨"test-probe", 8, newProber.clock.tickers.length⟩]
        clock := newProber.clock.NewTicker 8 } :=
  ⟨(run_fails_fast_on_nonpositive_interval newProber "test-probe" (-1)).1 (by norm_num),
    (run_fails_fast_on_nonpositive_interval newProber "test-probe" 8).2 (by norm_num)
      (by decide)⟩

theorem length_filter_not_add {α : Type} (p : α → Bool) (l : List α) :
    (l.filter fun a => !(p a)).length + (l.filter p).length = l.length := by
  induction l with
  | nil => rfl
  | cons hd tl ih => by_cases h : p hd <;> simp [List.filter_cons, h] <;> omega

theorem activeTickers_stopAt (l : List FakeTicker) : ∀ (i : Nat) (h : i < l.length),
    l[i].stopped = false →
    ((applyAt FakeTicker.Stop i l).filter fun tk => !tk.stopped).length + 1 =
      (l.filter fun tk => !tk.stopped).length := by
  induction l with
  | nil => intro i h; simp at h
  | cons hd tl ih =>
    intro i h hun
    cases i with
    | zero =>
      simp only [List.getElem_cons_zero] at hun
      simp [applyAt, List.filter_cons, FakeTicker.Stop, hun]
    | succ n =>
      have hrec := ih n (by simpa using h) (by simpa using hun)
      by_cases hhd : hd.stopped <;> simp [applyAt, List.filter_cons, hhd] <;> omega

/-- The registry invariant tying probes to their tickers: probe names
are unique, each live probe owns a distinct, in-range, still-running
ticker, and the clock's active-ticker count equals the number of live
probes. -/
def ProberInv (st : ProberSt) : Prop :=
  (st.probes.map RegProbe.name).Nodup ∧
  (st.probes.map RegProbe.tickerIdx).Nodup ∧
  (∀ pr ∈ st.probes, pr.tickerIdx < st.clock.tickers.length) ∧
  (∀ pr ∈ st.probes, ∀ h : pr.tickerIdx < st.clock.tickers.length,
    (st.clock.tickers[pr.tickerIdx]).stopped = false) ∧
  st.clock.activeTickers = st.probes.length

theorem runOk_fresh_step (st : ProberSt) (n : String) (I : Int)
    (hinv : ProberInv st) (hfresh : n ∉ st.probes.map RegProbe.name) (hI : 1 ≤ I) :
    ProberInv (st.RunOk n I) ∧
    (st.RunOk n I).probes.map RegProbe.name = st.probes.map RegProbe.name ++ [n] ∧
    (st.RunOk n I).activeProbes = st.activeProbes + 1 := by
  obtain ⟨hnd1, hnd2, hbound, hunstop, hcount⟩ := hinv
  have hfind : st.probes.find? (fun pr => pr.name == n) = none := by
    rw [List.find?_eq_none]
    intro pr hpr
    simp only [beq_iff_eq]
    intro he
    exact hfresh (he ▸ List.mem_map_of_mem RegProbe.name hpr)
  have hrun : st.RunOk n I =
      { probes := st.probes ++ [⟨n, I, st.clock.tickers.length⟩]
        clock := st.clock.NewTicker I } := by
    have hclose : st.Close n = st := by simp [ProberSt.Close, hfind]
    rw [ProberSt.RunOk, ProberSt.Run, if_neg (by omega)]
    simp [hclose]
  rw [hrun]
  refine ⟨⟨?_, ?_, ?_, ?_, ?_⟩, by simp, by simp [ProberSt.activeProbes]⟩
  · simp only [List.map_append, List.map_cons, List.map_nil, List.nodup_append]
    refine ⟨hnd1, List.nodup_singleton n, ?_⟩
    intro a ha hb
    simp only [List.mem_singleton] at hb
    subst hb
    exact hfresh ha
  · simp only [List.map_append, List.map_cons, List.map_nil, List.nodup_append]
    refine ⟨hnd2, List.nodup_singleton _, ?_⟩
    intro a ha hb
    simp only [List.mem_singleton] at hb
    obtain ⟨pr, hpr, rfl⟩ := List.mem_map.mp ha
    exact absurd (hb ▸ hbound pr hpr) (lt_irrefl _)
  · intro pr hpr
    simp only [FakeTime.NewTicker, List.length_append, List.length_cons, List.length_nil]
    rcases List.mem_append.mp hpr with hold | hnew
    · exact Nat.lt_succ_of_lt (hbound pr hold)
    · simp only [List.mem_singleton] at hnew
      subst hnew
      simp
  · intro pr hpr h
    rcases List.mem_append.mp hpr with hold | hnew
    · have hb := hbound pr hold
      show ((st.clock.tickers ++ [⟨none, I, st.clock.curTime + I, false⟩])[pr.tickerIdx]).stopped = false
      rw [List.getElem_append_left hb]
      exact hunstop pr hold hb
    · simp only [List.mem_singleton] at hnew
      subst hnew
      show ((st.clock.tickers ++ [⟨none, I, st.clock.curTime + I, false⟩])[st.clock.tickers.length]).stopped = false
      rw [List.getElem_concat_length _ _ _ rfl]
  · simp only [FakeTime.activeTickers, FakeTime.NewTicker, List.filter_append,
      List.length_append, List.length_cons, List.length_nil]
    rw [show (List.filter (fun tk => !tk.stopped) [(⟨none, I, st.clock.curTime + I, false⟩ : FakeTicker)]) = [⟨none, I, st.clock.curTime + I, false⟩] from rfl]
    simpa [FakeTime.activeTickers] using hcount

theorem close_mem_step (st : ProberSt) (k : String)
    (hinv : ProberInv st) (hk : k ∈ st.probes.map RegProbe.name) :
    ProberInv (st.Close k) ∧
    (st.Close k).probes.map RegProbe.name =
      (st.probes.map RegProbe.name).filter (fun s => s != k) ∧
    (st.Close k).activeProbes + 1 = st.activeProbes := by
  obtain ⟨hnd1, hnd2, hbound, hunstop, hcount⟩ := hinv
  have hsome : (st.probes.find? (fun pr => pr.name == k)).isSome := by
    rw [List.find?_isSome]
    obtain ⟨pr, hpr, hname⟩ := List.mem_map.mp hk
    exact ⟨pr, hpr, by simp [hname]⟩
  obtain ⟨pr0, hfind⟩ := Option.isSome_iff_exists.mp hsome
  have hpr0mem : pr0 ∈ st.probes := List.mem_of_find?_eq_some hfind
  have hpr0name : pr0.name = k := by simpa using List.find?_some hfind
  have hclose : st.Close k =
      { probes := st.probes.filter fun q => q.name != k
        clock := st.clock.stopAt pr0.tickerIdx } := by
    rw [ProberSt.Close, hfind]
  obtain ⟨l1, l2, hsplit⟩ := List.append_of_mem hpr0mem
  have hnd1' : ((l1 ++ pr0 :: l2).map RegProbe.name).Nodup := by
    rw [← hsplit]; exact hnd1
  rw [List.map_append, List.map_cons, List.nodup_append] at hnd1'
  obtain ⟨hA, hB, hdisj⟩ := hnd1'
  have hnotinB : pr0.name ∉ l2.map RegProbe.name := (List.nodup_cons.mp hB).1
  have h1 : ∀ q ∈ l1, (q.name != k) = true := by
    intro q hq
    simp only [bne_iff_ne, ne_eq]
    intro he
    exact hdisj (List.mem_map_of_mem RegProbe.name hq)
      (by simp [he, hpr0name.symm])
  have h2 : ∀ q ∈ l2, (q.name != k) = true := by
    intro q hq
    simp only [bne_iff_ne, ne_eq]
    intro he
    refine hnotinB ?_
    rw [hpr0name, ← he]
    exact List.mem_map_of_mem RegProbe.name hq
  have hfl : (st.probes.filter fun q => q.name != k) = l1 ++ l2 := by
    rw [hsplit, List.filter_append, List.filter_cons]
    have hpf : (pr0.name != k) = false := by simp [hpr0name]
    rw [hpf]
    simp only [Bool.false_eq_true, if_false]
    rw [List.filter_eq_self.mpr h1, List.filter_eq_self.mpr h2]
  have hmemsub : ∀ q ∈ l1 ++ l2, q ∈ st.probes := by
    intro q hq
    rw [hsplit]
    rcases List.mem_append.mp hq with h | h
    · exact List.mem_append.mpr (Or.inl h)
    · exact List.mem_append.mpr (Or.inr (List.mem_cons_of_mem pr0 h))
  have hnd2' : ((l1 ++ pr0 :: l2).map RegProbe.tickerIdx).Nodup := by
    rw [← hsplit]; exact hnd2
  rw [List.map_append, List.map_cons, List.nodup_append] at hnd2'
  obtain ⟨hA2, hB2, hdisj2⟩ := hnd2'
  have hidxne : ∀ q ∈ l1 ++ l2, q.tickerIdx ≠ pr0.tickerIdx := by
    intro q hq
    rcases List.mem_append.mp hq with h | h
    · intro he
      exact hdisj2 (List.mem_map_of_mem RegProbe.tickerIdx h) (by simp [he])
    · intro he
      refine (List.nodup_cons.mp hB2).1 ?_
      rw [← he]
      exact List.mem_map_of_mem RegProbe.tickerIdx h
  have hb0 : pr0.tickerIdx < st.clock.tickers.length := hbound pr0 hpr0mem
  have hun0 : (st.clock.tickers[pr0.tickerIdx]).stopped = false := hunstop pr0 hpr0mem hb0
  have hlen' : (st.clock.stopAt pr0.tickerIdx).tickers.length = st.clock.tickers.length := by
    simp [FakeTime.stopAt, applyAt_length]
  have hcount' : (st.clock.stopAt pr0.tickerIdx).activeTickers + 1 = st.clock.activeTickers :=
    activeTickers_stopAt st.clock.tickers pr0.tickerIdx hb0 hun0
  have hlenprobes : st.probes.length = (l1 ++ l2).length + 1 := by
    rw [hsplit]; simp; omega
  rw [hclose]
  refine ⟨⟨?_, ?_, ?_, ?_, ?_⟩, ?_, ?_⟩
  · rw [hfl, List.map_append, List.nodup_append]
    refine ⟨hA, (List.nodup_cons.mp hB).2, ?_⟩
    intro a ha hb
    exact hdisj ha (List.mem_cons_of_mem pr0.name hb)
  · rw [hfl, List.map_append, List.nodup_append]
    refine ⟨hA2, (List.nodup_cons.mp hB2).2, ?_⟩
    intro a ha hb
    exact hdisj2 ha (List.mem_cons_of_mem pr0.tickerIdx hb)
  · intro q hq
    rw [hfl] at hq
    rw [hlen']
    exact hbound q (hmemsub q hq)
  · intro q hq h
    rw [hfl] at hq
    have hbq : q.tickerIdx < st.clock.tickers.length := hbound q (hmemsub q hq)
    have hne : q.tickerIdx ≠ pr0.tickerIdx := hidxne q hq
    show ((st.clock.stopAt pr0.tickerIdx).tickers[q.tickerIdx]).stopped = false
    have : (st.clock.stopAt pr0.tickerIdx).tickers[q.tickerIdx] =
        st.clock.tickers[q.tickerIdx] := by
      simp only [FakeTime.stopAt]
      exact applyAt_getElem_ne FakeTicker.Stop st.clock.tickers pr0.tickerIdx q.tickerIdx
        hbq (by simpa [applyAt_length] using hbq) hne
    rw [this]
    exact hunstop q (hmemsub q hq) hbq
  · rw [hfl]
    show (st.clock.stopAt pr0.tickerIdx).activeTickers = (l1 ++ l2).length
    omega
  · rw [List.filter_map]
    rfl
  · rw [hfl]
    show (l1 ++ l2).length + 1 = st.probes.length
    omega

theorem runAll_fresh (I : Int) (hI : 1 ≤ I) : ∀ (ns : List String) (st : ProberSt),
    ProberInv st → ns.Nodup → (∀ n ∈ ns, n ∉ st.probes.map RegProbe.name) →
    ProberInv (ns.foldl (fun s n => s.RunOk n I) st) ∧
    (ns.foldl (fun s n => s.RunOk n I) st).probes.map RegProbe.name =
      st.probes.map RegProbe.name ++ ns ∧
    (ns.foldl (fun s n => s.RunOk n I) st).activeProbes = st.activeProbes + ns.length := by
  intro ns
  induction ns with
  | nil =>
    intro st hinv _ _
    exact ⟨hinv, by simp, by simp⟩
  | cons n rest ih =>
    intro st hinv hnd hfresh
    obtain ⟨hinv1, hnames1, hcount1⟩ :=
      runOk_fresh_step st n I hinv (hfresh n (by simp)) hI
    have hfresh2 : ∀ m ∈ rest, m ∉ (st.RunOk n I).probes.map RegProbe.name := by
      intro m hm
      rw [hnames1]
      simp only [List.mem_append, List.mem_singleton]
      rintro (hmem | rfl)
      · exact hfresh m (List.mem_cons_of_mem n hm) hmem
      · exact (List.nodup_cons.mp hnd).1 hm
    obtain ⟨hinv2, hnames2, hcount2⟩ :=
      ih (st.RunOk n I) hinv1 (List.nodup_cons.mp hnd).2 hfresh2
    refine ⟨hinv2, ?_, ?_⟩
    · rw [List.foldl_cons, hnames2, hnames1]
      simp
    · rw [List.foldl_cons, hcount2, hcount1, List.length_cons]
      omega

theorem closeAll_mem : ∀ (ks : List String) (st : ProberSt),
    ProberInv st → ks.Nodup → (∀ k ∈ ks, k ∈ st.probes.map RegProbe.name) →
    ProberInv (ks.foldl (fun s k => s.Close k) st) ∧
    (ks.foldl (fun s k => s.Close k) st).activeProbes + ks.length = st.activeProbes := by
  intro ks
  induction ks with
  | nil =>
    intro st hinv _ _
    exact ⟨hinv, by simp⟩
  | cons k rest ih =>
    intro st hinv hnd hmem
    obtain ⟨hinv1, hnames1, hcount1⟩ := close_mem_step st k hinv (hmem k (by simp))
    have hmem2 : ∀ m ∈ rest, m ∈ (st.Close k).probes.map RegProbe.name := by
      intro m hm
      rw [hnames1, List.mem_filter]
      refine ⟨hmem m (List.mem_cons_of_mem k hm), ?_⟩
      simp only [bne_iff_ne, ne_eq]
      intro he
      exact (List.nodup_cons.mp hnd).1 (he ▸ hm)
    obtain ⟨hinv2, hcount2⟩ := ih (st.Close k) hinv1 (List.nodup_cons.mp hnd).2 hmem2
    refine ⟨hinv2, ?_⟩
    rw [List.foldl_cons, List.length_cons]
    omega

/-- Claim C7: the fake clock's activeTickers always equals the number
of tickers it has created minus the stopped ones; and on the registry,
registering N distinctly named probes and then closing K of them leaves
activeProbes = N - K with the closed probes' tickers stopped, so
activeTickers = N - K as well. -/
theorem active_probes_and_tickers_track_registry (ns ks : List String) (I : Int)
    (hI : 1 ≤ I) (hns : ns.Nodup) (hks : ks.Nodup) (hsub : ∀ k ∈ ks, k ∈ ns) :
    (∀ ft : FakeTime,
      ft.activeTickers + (ft.tickers.filter fun tk => tk.stopped).length =
        ft.tickers.length) ∧
    (ks.foldl (fun s k => s.Close k)
        (ns.foldl (fun s n => s.RunOk n I) newProber)).activeProbes =
      ns.length - ks.length ∧
    (ks.foldl (fun s k => s.Close k)
        (ns.foldl (fun s n => s.RunOk n I) newProber)).clock.activeTickers =
      ns.length - ks.length := by
  have hinvNew : ProberInv newProber := by
    refine ⟨by simp [newProber], by simp [newProber], ?_, ?_, by rfl⟩
    · intro pr hpr; simp [newProber] at hpr
    · intro pr hpr; simp [newProber] at hpr
  obtain ⟨hinv1, hnames1, hcount1⟩ :=
    runAll_fresh I hI ns newProber hinvNew hns (by intro n _ hmem; simp [newProber] at hmem)
  have hsub' : ∀ k ∈ ks, k ∈ (ns.foldl (fun s n => s.RunOk n I) newProber).probes.map
      RegProbe.name := by
    intro k hk
    rw [hnames1]
    simpa [newProber] using hsub k hk
  obtain ⟨hinv2, hcount2⟩ :=
    closeAll_mem ks (ns.foldl (fun s n => s.RunOk n I) newProber) hinv1 hks hsub'
  have hN : (ns.foldl (fun s n => s.RunOk n I) newProber).activeProbes = ns.length := by
    rw [hcount1]; simp [newProber, ProberSt.activeProbes]
  refine ⟨?_, ?_, ?_⟩
  · intro ft
    exact length_filter_not_add (fun tk => tk.stopped) ft.tickers
  · omega
  · obtain ⟨_, _, _, _, hticks⟩ := hinv2
    rw [hticks]
    show (ks.foldl (fun s k => s.Close k)
      (ns.foldl (fun s n => s.RunOk n I) newProber)).activeProbes = ns.length - ks.length
    omega

/-- Witness for Claim C7: three probes a, b, c registered at interval 8
and probe b closed leave two active probes and two active tickers. -/
theorem active_probes_and_tickers_track_registry_witness :
    (["b"].foldl (fun s k => s.Close k)
        (["a", "b", "c"].foldl (fun s n => s.RunOk n 8) newProber)).activeProbes = 2 ∧
    (["b"].foldl (fun s k => s.Close k)
        (["a", "b", "c"].foldl (fun s n => s.RunOk n 8) newProber)).clock.activeTickers = 2 :=
  ⟨(active_probes_and_tickers_track_registry ["a", "b", "c"] ["b"] 8 (by norm_num)
      (by decide) (by decide) (by decide)).2.1,
    (active_probes_and_tickers_track_registry ["a", "b", "c"] ["b"] 8 (by norm_num)
      (by decide) (by decide) (by decide)).2.2⟩
